import Mathlib

/-!
Verification of the text-layout core of `src/gemrb/core/TextContainer.cpp`
(GemRB text container: spans, incremental flow layout, exclusion rectangles).

The embedding translates `TextContainer.cpp` directly.  The geometric
primitives `Point`, `Size` and `Region` are declared in headers that are not
part of the shown sources, so their predicates are modelled from the spec
(half-open rectangles; `IsEmpty` meaning a zero dimension).  Machine `int`
coordinates are modelled as `Int` (no overflow is relevant at the sizes the
claims use).  C++ `assert` failures and iterator misuse (undefined behaviour)
are modelled by returning `none`; the unbounded `do/while` placement loop is
given explicit fuel, with termination proved separately.

The C++ `layout` member is a `std::map<TextSpan*, Region>`; it is modelled as
an association list keyed by a span identifier (`Nat`).  `std::map` iterates
in pointer order, which is unspecified; the model fixes insertion order, which
is one admissible refinement (no claim depends on the iteration order).
-/

namespace GemRB

/-- Modelled from the spec: a 2-D point with integer coordinates
(`Point` from the repository's geometry header, not among the shown files). -/
structure Point where
  x : Int
  y : Int
deriving DecidableEq, Repr

/-- Modelled from the spec: a width/height pair
(`Size` from the repository's geometry header, not among the shown files). -/
structure Size where
  w : Int
  h : Int
deriving DecidableEq, Repr

/-- Modelled from the spec: a size is empty when a dimension is zero
("`0×0` meaning size to fit", a frame that "is still unset"). -/
def Size.IsEmpty (s : Size) : Prop := s.w = 0 ∨ s.h = 0

instance (s : Size) : Decidable s.IsEmpty :=
  inferInstanceAs (Decidable (_ ∨ _))

/-- Modelled from the spec: an axis-aligned rectangle, origin plus size
(`Region` from the repository's geometry header, not among the shown files). -/
structure Region where
  x : Int
  y : Int
  w : Int
  h : Int
deriving DecidableEq, Repr

/-- The default-constructed `Region()` used by `std::map::operator[]`. -/
def Region.zero : Region := ⟨0, 0, 0, 0⟩

/-- Modelled from the spec: a point is inside a region when it lies in the
half-open box `[x, x+w) × [y, y+h)`. -/
def Region.PointInside (r : Region) (p : Point) : Prop :=
  r.x ≤ p.x ∧ p.x < r.x + r.w ∧ r.y ≤ p.y ∧ p.y < r.y + r.h

instance (r : Region) (p : Point) : Decidable (r.PointInside p) :=
  inferInstanceAs (Decidable (_ ∧ _ ∧ _ ∧ _))

/-- Modelled from the spec: two regions intersect ("overlap") when neither is
entirely to one side of the other, extents taken half-open. -/
def Region.IntersectsRegion (r s : Region) : Prop :=
  r.x < s.x + s.w ∧ s.x < r.x + r.w ∧ r.y < s.y + s.h ∧ s.y < r.y + r.h

instance (r s : Region) : Decidable (r.IntersectsRegion s) :=
  inferInstanceAs (Decidable (_ ∧ _ ∧ _ ∧ _))

/-- Modelled from the spec: `r.InsideRegion s` holds when `r` is fully
contained in `s` ("a new rectangle that is fully contained by an existing
one"). -/
def Region.InsideRegion (r s : Region) : Prop :=
  s.x ≤ r.x ∧ s.y ≤ r.y ∧ r.x + r.w ≤ s.x + s.w ∧ r.y + r.h ≤ s.y + s.h

instance (r s : Region) : Decidable (r.InsideRegion s) :=
  inferInstanceAs (Decidable (_ ∧ _ ∧ _ ∧ _))

/-- A span as the container's layout sees it: an identity (standing for the
`TextSpan*` pointer) and the definite frame size `SpanFrame()` reports. -/
structure Span where
  sid : Nat
  sz : Size
deriving DecidableEq, Repr

/-- The layout cache `std::map<TextSpan*, Region>`, as an association list. -/
abbrev SpanLayout := List (Nat × Region)

/-- Lookup in the layout cache (`layout.find`). -/
def layoutFind (ly : SpanLayout) (s : Nat) : Option Region :=
  (ly.find? (fun pr => pr.1 = s)).map Prod.snd

/-- Write `layout[span] = rgn`: update the entry if the key is present, insert
otherwise. -/
def layoutSet : SpanLayout → Nat → Region → SpanLayout
  | [], s, r => [(s, r)]
  | (k, v) :: rest, s, r =>
      if k = s then (s, r) :: rest else (k, v) :: layoutSet rest s r

/-- The read `layout[*--it]` through `std::map::operator[]`: returns the
stored region, default-inserting `Region()` when the key is absent. -/
def layoutGetDefault (ly : SpanLayout) (s : Nat) : Region × SpanLayout :=
  match layoutFind ly s with
  | some r => (r, ly)
  | none => (Region.zero, ly ++ [(s, Region.zero)])

/-- State of a `TextContainer`: frame, ordered span sequence, layout cache and
exclusion rectangles (`TextContainer.cpp` lines 85–99 and the class fields). -/
structure TextContainer where
  frame : Size
  spans : List Span
  layout : SpanLayout
  ExclusionRects : List Region
deriving DecidableEq, Repr

/-- Function `TextContainer::ExcludedRegionForRect` (lines 234–242): the first
exclusion rectangle intersecting `rect`, if any. -/
def ExcludedRegionForRect (rects : List Region) (rect : Region) : Option Region :=
  rects.find? (fun e => decide (rect.IntersectsRegion e))

/-- The loop body of `TextContainer::AddExclusionRect` (lines 214–232) on the
exclusion list: discard `rect` if it is inside the first matching existing
rectangle, replace the first existing rectangle that is inside `rect`,
otherwise append. -/
def addExclRects : List Region → Region → List Region
  | [], rect => [rect]
  | e :: rest, rect =>
      if rect.InsideRegion e then e :: rest
      else if e.InsideRegion rect then rect :: rest
      else e :: addExclRects rest rect

/-- Function `TextContainer::AddExclusionRect` including its
`assert(!rect.Dimensions().IsEmpty())` (modelled as `none` on failure). -/
def TextContainer.AddExclusionRect (tc : TextContainer) (rect : Region) :
    Option TextContainer :=
  if (Size.mk rect.w rect.h).IsEmpty then none
  else some { tc with ExclusionRects := addExclRects tc.ExclusionRects rect }

/-- One body of the `do { ... } while (excluded)` placement loop of
`TextContainer::LayoutSpansStartingAt` (lines 188–203): advance the draw
point past `excluded` (or by the span width when `layoutRgn.w` is already
set), wrap to `x = 0` advancing `y` by the span height when a non-zero `x`
would exceed the container width `cw`, and form the candidate `layoutRgn`. -/
def placeStep (cw : Int) (sf : Size) (px py : Int) (excluded : Option Region)
    (lw : Int) : Region :=
  let x1 : Int :=
    match excluded with
    | some e => e.x + e.w + 1
    | none => if lw ≠ 0 then px + sf.w + 1 else px
  if x1 ≠ 0 ∧ cw < x1 + sf.w then ⟨0, py + sf.h, sf.w, sf.h⟩
  else ⟨x1, py, sf.w, sf.h⟩

/-- The `do { ... } while (excluded)` placement loop (lines 188–205).
Arguments: container width `cw`, span frame `sf`, exclusion list `rects`,
fuel, current draw point `(px, py)`, the `excluded` pointer, and
`layoutRgn.w` at the top of the body.  Returns the committed `layoutRgn`;
`none` means the fuel ran out. -/
def placeLoop (cw : Int) (sf : Size) (rects : List Region) :
    Nat → Int → Int → Option Region → Int → Option Region
  | 0, _, _, _, _ => none
  | fuel + 1, px, py, excluded, lw =>
      let rgn := placeStep cw sf px py excluded lw
      match ExcludedRegionForRect rects rgn with
      | none => some rgn
      | some e => placeLoop cw sf rects fuel rgn.x rgn.y (some e) sf.w

/-- The `for (; it != spans.end(); it++)` loop of
`TextContainer::LayoutSpansStartingAt` (lines 182–211): place each remaining
span, commit it in the layout cache and add its rectangle to the exclusion
set (the `assert` inside `AddExclusionRect` is modelled as for the public
call). -/
def layoutSpans (cw : Int) (fuel : Nat) :
    List Span → Int → Int → SpanLayout → List Region →
    Option (SpanLayout × List Region)
  | [], _, _, ly, rects => some (ly, rects)
  | sp :: rest, px, py, ly, rects =>
      match placeLoop cw sp.sz rects fuel px py none 0 with
      | none => none
      | some rgn =>
          if (Size.mk rgn.w rgn.h).IsEmpty then none
          else
            layoutSpans cw fuel rest rgn.x rgn.y
              (layoutSet ly sp.sid rgn) (addExclRects rects rgn)

/-- Function `TextContainer::LayoutSpansStartingAt` (lines 166–212), the iterator
argument given as the index `k` into `spans`.  `k ≥ spans.length` models the
end iterator, on which the function's own `assert(it != spans.end())` fires
(`none`).  When `k > 0` the previous span's cached rectangle is read through
`layout[*--it]` (default-inserting); when `k = 0` the draw point starts at
`(0, firstSpanHeight)`. -/
def TextContainer.LayoutSpansStartingAt (fuel : Nat) (tc : TextContainer)
    (k : Nat) : Option TextContainer :=
  match tc.spans.drop k with
  | [] => none
  | sp :: rest =>
      if k = 0 then
        (layoutSpans tc.frame.w fuel (sp :: rest) 0 sp.sz.h tc.layout
            tc.ExclusionRects).map
          (fun pr => { tc with layout := pr.1, ExclusionRects := pr.2 })
      else
        match (tc.spans.drop (k - 1)).head? with
        | none => none
        | some prev =>
            let gd := layoutGetDefault tc.layout prev.sid
            (layoutSpans tc.frame.w fuel (sp :: rest) (gd.1.x + gd.1.w + 1)
                gd.1.y gd.2 tc.ExclusionRects).map
              (fun pr => { tc with layout := pr.1, ExclusionRects := pr.2 })

/-- Function `TextContainer::AppendSpan` (lines 106–110): push back, then lay out
starting at the new last element. -/
def TextContainer.AppendSpan (fuel : Nat) (tc : TextContainer) (sp : Span) :
    Option TextContainer :=
  TextContainer.LayoutSpansStartingAt fuel
    { tc with spans := tc.spans ++ [sp] } tc.spans.length

/-- Index of the first span with the given identity (`std::find` over the
span list). -/
def findSpanIdx (sid : Nat) : List Span → Option Nat
  | [] => none
  | sp :: rest =>
      if sp.sid = sid then some 0 else (findSpanIdx sid rest).map Nat.succ

/-- Insert an element at an index of a list (appends when the index is past
the end, matching `std::list::insert` at `end()`). -/
def insertAt (n : Nat) (a : Span) : List Span → List Span
  | [] => [a]
  | b :: rest =>
      match n with
      | 0 => a :: b :: rest
      | m + 1 => b :: insertAt m a rest

/-- Erase the element at an index of a list. -/
def eraseAt (n : Nat) : List Span → List Span
  | [] => []
  | b :: rest =>
      match n with
      | 0 => rest
      | m + 1 => b :: eraseAt m rest

/-- Function `TextContainer::InsertSpanAfter` (lines 112–122).  Passing
`existing = none` is
the NULL case: push front and return without laying anything out.  Otherwise
the span is inserted after `existing` and `LayoutSpansStartingAt` is invoked
on the iterator that now rests on the *old successor* of `existing` (index
`i + 2`); if `existing` is the last span that iterator is `end()` and the
callee's assert fires, and if `existing` is absent `++it` increments the end
iterator (undefined behaviour), both modelled as `none`. -/
def TextContainer.InsertSpanAfter (fuel : Nat) (tc : TextContainer)
    (newSpan : Span) (existing : Option Nat) : Option TextContainer :=
  match existing with
  | none => some { tc with spans := newSpan :: tc.spans }
  | some e =>
      match findSpanIdx e tc.spans with
      | none => none
      | some i =>
          TextContainer.LayoutSpansStartingAt fuel
            { tc with spans := insertAt (i + 1) newSpan tc.spans } (i + 2)

/-- Function `TextContainer::RemoveSpan` (lines 124–133).  An absent span leaves the
container untouched (returns NULL).  Otherwise the span is erased from the
sequence (its layout entry is *not* erased) and layout restarts at
`--spans.erase(it)`, i.e. the position *before* the removed one; removing the
first span decrements `begin()` (undefined behaviour), modelled as `none`. -/
def TextContainer.RemoveSpan (fuel : Nat) (tc : TextContainer) (sid : Nat) :
    Option TextContainer :=
  match findSpanIdx sid tc.spans with
  | none => some tc
  | some k =>
      match k with
      | 0 => none
      | j + 1 =>
          TextContainer.LayoutSpansStartingAt fuel
            { tc with spans := eraseAt (j + 1) tc.spans } j

/-- Function `TextContainer::SpanAtPoint` (lines 135–149): `NULL` outside the
container's own frame, otherwise the first layout entry whose rectangle
contains the point. -/
def TextContainer.SpanAtPoint (tc : TextContainer) (p : Point) : Option Nat :=
  if (Region.mk 0 0 tc.frame.w tc.frame.h).PointInside p then
    (tc.layout.find? (fun pr => decide (pr.2.PointInside p))).map Prod.fst
  else none

/-- The sequence of rectangles `TextContainer::DrawContents` (lines 151–164)
draws: one blit per layout entry, translated by the draw offset. -/
def TextContainer.DrawContents (tc : TextContainer) (x y : Int) :
    List (Nat × Region) :=
  tc.layout.map (fun pr => (pr.1, ⟨pr.2.x + x, pr.2.y + y, pr.2.w, pr.2.h⟩))

/-- The four public mutating operations the claims quantify over. -/
inductive ContOp where
  | append (sp : Span)
  | insertAfter (sp : Span) (existing : Option Nat)
  | remove (sid : Nat)
  | addExcl (r : Region)
deriving DecidableEq, Repr

/-- Apply one public operation. -/
def applyOp (fuel : Nat) (tc : TextContainer) : ContOp → Option TextContainer
  | .append sp => tc.AppendSpan fuel sp
  | .insertAfter sp ex => tc.InsertSpanAfter fuel sp ex
  | .remove sid => tc.RemoveSpan fuel sid
  | .addExcl r => tc.AddExclusionRect r

/-- Run a sequence of public operations; `none` propagates assertion
failures, undefined behaviour and fuel exhaustion. -/
def runOps (fuel : Nat) : List ContOp → TextContainer → Option TextContainer
  | [], tc => some tc
  | op :: rest, tc => (applyOp fuel tc op).bind (runOps fuel rest)

/-- A freshly constructed container with the given frame
(`TextContainer::TextContainer`, lines 85–90). -/
def TextContainer.init (frame : Size) : TextContainer := ⟨frame, [], [], []⟩

/-- Well-formed operation: span frames are positive, externally added
exclusion rectangles lie at non-negative coordinates with positive
dimensions. -/
def OpWF : ContOp → Prop
  | .append sp => 0 < sp.sz.w ∧ 0 < sp.sz.h
  | .insertAfter sp _ => 0 < sp.sz.w ∧ 0 < sp.sz.h
  | .remove _ => True
  | .addExcl r => 0 ≤ r.x ∧ 0 ≤ r.y ∧ 0 < r.w ∧ 0 < r.h

/-! ## The `TextSpan` render/frame state machine (lines 57–82) -/

/-- State of a `TextSpan` relevant to frame/render claims: the frame size and the
cached sprite (represented by its dimensions).  The font's
`RenderTextAsSprite` is abstracted as a function `rend` from the requested
frame to the resulting sprite's dimensions. -/
structure TextSpan where
  frame : Size
  spanSprite : Option Size
deriving DecidableEq, Repr

/-- Function `TextSpan::RenderSpan` (lines 64–75): render the sprite at the current
frame, then fix each zero frame dimension to the sprite's dimension. -/
def TextSpan.RenderSpan (rend : Size → Size) (ts : TextSpan) : TextSpan :=
  let sprite := rend ts.frame
  { frame :=
      ⟨if ts.frame.w = 0 then sprite.w else ts.frame.w,
       if ts.frame.h = 0 then sprite.h else ts.frame.h⟩,
    spanSprite := some sprite }

/-- Function `TextSpan::RenderedSpan` (lines 57–62): return the cached sprite,
rendering first when absent. -/
def TextSpan.RenderedSpan (rend : Size → Size) (ts : TextSpan) :
    Option Size × TextSpan :=
  match ts.spanSprite with
  | some s => (some s, ts)
  | none =>
      let ts2 := ts.RenderSpan rend
      (ts2.spanSprite, ts2)

/-- Function `TextSpan::SpanFrame` (lines 77–82): render first when the frame is still
empty, then return the frame. -/
def TextSpan.SpanFrame (rend : Size → Size) (ts : TextSpan) :
    Size × TextSpan :=
  if ts.frame.IsEmpty then
    let ts2 := ts.RenderSpan rend
    (ts2.frame, ts2)
  else (ts.frame, ts)

/-! ## Derived predicates used by the claims -/

/-- A well-formed rectangle: non-negative origin, positive dimensions. -/
def WFrect (r : Region) : Prop := 0 ≤ r.x ∧ 0 ≤ r.y ∧ 0 < r.w ∧ 0 < r.h

instance (r : Region) : Decidable (WFrect r) :=
  inferInstanceAs (Decidable (_ ∧ _ ∧ _ ∧ _))

/-- Relation: `a` is a strict subset of `b` (contained, not equal in extent). -/
def strictSub (a b : Region) : Prop := a.InsideRegion b ∧ ¬ b.InsideRegion a

instance (a b : Region) : Decidable (strictSub a b) :=
  inferInstanceAs (Decidable (_ ∧ _))

/-- No rectangle of the list is a strict subset of another. -/
def NoStrictSub (l : List Region) : Prop :=
  l.Pairwise (fun a b => ¬ strictSub a b ∧ ¬ strictSub b a)

/-- Along a sequence of `AddExclusionRect` arguments, each new rectangle
strictly contains at most one rectangle of the set present at its call. -/
def AtMostOneB : List Region → List Region → Bool
  | _, [] => true
  | acc, r :: rest =>
      decide (acc.countP (fun e => decide (strictSub e r)) ≤ 1) &&
        AtMostOneB (addExclRects acc r) rest

/-- A layout-cache rectangle is either `std::map`'s default-inserted zero
region or a well-formed rectangle covered by some exclusion rectangle. -/
def EntryOK (rects : List Region) (r : Region) : Prop :=
  r = Region.zero ∨ (WFrect r ∧ ∃ e ∈ rects, r.InsideRegion e)

/-- Container invariant: exclusion rectangles are well formed, every cached
layout rectangle is zero or covered by an exclusion rectangle, cached
rectangles are pairwise non-overlapping, and span frames are positive. -/
def INV (tc : TextContainer) : Prop :=
  (∀ e ∈ tc.ExclusionRects, WFrect e) ∧
  (∀ pr ∈ tc.layout, EntryOK tc.ExclusionRects pr.2) ∧
  tc.layout.Pairwise (fun a b => ¬ a.2.IntersectsRegion b.2) ∧
  (∀ sp ∈ tc.spans, 0 < sp.sz.w ∧ 0 < sp.sz.h)

instance : DecidablePred OpWF := fun op =>
  match op with
  | .append _ => inferInstanceAs (Decidable (_ ∧ _))
  | .insertAfter _ _ => inferInstanceAs (Decidable (_ ∧ _))
  | .remove _ => inferInstanceAs (Decidable True)
  | .addExcl _ => inferInstanceAs (Decidable (_ ∧ _ ∧ _ ∧ _))

/-! ## Geometry lemmas -/

theorem intersects_symm {r s : Region} (h : r.IntersectsRegion s) :
    s.IntersectsRegion r := by
  obtain ⟨h1, h2, h3, h4⟩ := h
  exact ⟨h2, h1, h4, h3⟩

theorem inside_refl (r : Region) : r.InsideRegion r :=
  ⟨le_refl _, le_refl _, le_refl _, le_refl _⟩

theorem inside_trans {a b c : Region} (hab : a.InsideRegion b)
    (hbc : b.InsideRegion c) : a.InsideRegion c := by
  obtain ⟨h1, h2, h3, h4⟩ := hab
  obtain ⟨g1, g2, g3, g4⟩ := hbc
  exact ⟨le_trans g1 h1, le_trans g2 h2, le_trans h3 g3, le_trans h4 g4⟩

theorem intersects_mono {a r e : Region} (hre : r.InsideRegion e)
    (h : a.IntersectsRegion r) : a.IntersectsRegion e := by
  obtain ⟨i1, i2, i3, i4⟩ := hre
  obtain ⟨h1, h2, h3, h4⟩ := h
  exact ⟨lt_of_lt_of_le h1 i3, lt_of_le_of_lt i1 h2,
    lt_of_lt_of_le h3 i4, lt_of_le_of_lt i2 h4⟩

theorem not_intersects_of_inside {a r e : Region} (hre : r.InsideRegion e)
    (h : ¬ a.IntersectsRegion e) : ¬ a.IntersectsRegion r :=
  fun hi => h (intersects_mono hre hi)

theorem not_intersects_zero_right {r : Region} (hx : 0 ≤ r.x) :
    ¬ r.IntersectsRegion Region.zero := by
  intro h
  obtain ⟨h1, -, -, -⟩ := h
  simp only [Region.zero] at h1
  omega

theorem not_intersects_zero_left {e : Region} (hx : 0 ≤ e.x) :
    ¬ Region.zero.IntersectsRegion e := by
  intro h
  obtain ⟨-, h2, -, -⟩ := h
  simp only [Region.zero] at h2
  omega

/-! ## Lemmas about `ExcludedRegionForRect` and `addExclRects` -/

theorem excludedRegionForRect_eq_none {rects : List Region} {rect : Region}
    (h : ExcludedRegionForRect rects rect = none) :
    ∀ e ∈ rects, ¬ rect.IntersectsRegion e := by
  intro e he
  have := List.find?_eq_none.mp h e he
  simpa using this

theorem excludedRegionForRect_none_of {rects : List Region} {rect : Region}
    (h : ∀ e ∈ rects, ¬ rect.IntersectsRegion e) :
    ExcludedRegionForRect rects rect = none := by
  apply List.find?_eq_none.mpr
  intro e he
  simpa using h e he

theorem excludedRegionForRect_eq_some {rects : List Region} {rect e : Region}
    (h : ExcludedRegionForRect rects rect = some e) :
    e ∈ rects ∧ rect.IntersectsRegion e := by
  refine ⟨List.mem_of_find?_eq_some h, ?_⟩
  have := List.find?_some h
  simpa using this

theorem addExclRects_subset {rects : List Region} {r e2 : Region}
    (h : e2 ∈ addExclRects rects r) : e2 = r ∨ e2 ∈ rects := by
  induction rects with
  | nil => simpa [addExclRects] using h
  | cons e rest ih =>
      simp only [addExclRects] at h
      split at h
      · right; exact h
      · split at h
        · rcases List.mem_cons.mp h with h | h
          · exact Or.inl h
          · exact Or.inr (List.mem_cons_of_mem _ h)
        · rcases List.mem_cons.mp h with h | h
          · exact Or.inr (h ▸ List.mem_cons_self _ _)
          · rcases ih h with h | h
            · exact Or.inl h
            · exact Or.inr (List.mem_cons_of_mem _ h)

theorem addExclRects_cover_old {rects : List Region} {r : Region} :
    ∀ e ∈ rects, ∃ e2 ∈ addExclRects rects r, e.InsideRegion e2 := by
  induction rects with
  | nil => intro e he; cases he
  | cons e0 rest ih =>
      intro e he
      simp only [addExclRects]
      split
      · exact ⟨e, he, inside_refl e⟩
      · split
        · rcases List.mem_cons.mp he with rfl | he
          · exact ⟨r, List.mem_cons_self _ _, by assumption⟩
          · exact ⟨e, List.mem_cons_of_mem _ he, inside_refl e⟩
        · rcases List.mem_cons.mp he with rfl | he
          · exact ⟨e, List.mem_cons_self _ _, inside_refl e⟩
          · obtain ⟨e2, he2, hin⟩ := ih e he
            exact ⟨e2, List.mem_cons_of_mem _ he2, hin⟩

theorem addExclRects_cover_new (rects : List Region) (r : Region) :
    ∃ e2 ∈ addExclRects rects r, r.InsideRegion e2 := by
  induction rects with
  | nil => exact ⟨r, List.mem_cons_self _ _, inside_refl r⟩
  | cons e0 rest ih =>
      simp only [addExclRects]
      split
      · exact ⟨e0, List.mem_cons_self _ _, by assumption⟩
      · split
        · exact ⟨r, List.mem_cons_self _ _, inside_refl r⟩
        · obtain ⟨e2, he2, hin⟩ := ih
          exact ⟨e2, List.mem_cons_of_mem _ he2, hin⟩

theorem addExclRects_wf {rects : List Region} {r : Region}
    (hr : ∀ e ∈ rects, WFrect e) (hwf : WFrect r) :
    ∀ e2 ∈ addExclRects rects r, WFrect e2 := by
  intro e2 he2
  rcases addExclRects_subset he2 with rfl | h
  · exact hwf
  · exact hr e2 h

/-! ## Lemmas about the layout cache -/

theorem layoutSet_subset {ly : SpanLayout} {s : Nat} {r : Region} :
    ∀ pr ∈ layoutSet ly s r, pr = (s, r) ∨ pr ∈ ly := by
  induction ly with
  | nil => intro pr h; simpa [layoutSet] using h
  | cons kv rest ih =>
      intro pr h
      simp only [layoutSet] at h
      split at h
      · rcases List.mem_cons.mp h with h | h
        · exact Or.inl h
        · exact Or.inr (List.mem_cons_of_mem _ h)
      · rcases List.mem_cons.mp h with h | h
        · exact Or.inr (h ▸ List.mem_cons_self _ _)
        · rcases ih pr h with h | h
          · exact Or.inl h
          · exact Or.inr (List.mem_cons_of_mem _ h)

theorem layoutSet_pairwise {P : Nat × Region → Nat × Region → Prop}
    {ly : SpanLayout} {s : Nat} {r : Region} (hp : ly.Pairwise P)
    (hnew : ∀ pr ∈ ly, P (s, r) pr ∧ P pr (s, r)) :
    (layoutSet ly s r).Pairwise P := by
  induction ly with
  | nil => simp [layoutSet, List.pairwise_singleton]
  | cons kv rest ih =>
      rcases List.pairwise_cons.mp hp with ⟨hhead, htail⟩
      simp only [layoutSet]
      split
      · refine List.pairwise_cons.mpr ⟨?_, htail⟩
        intro pr hpr
        exact (hnew pr (List.mem_cons_of_mem _ hpr)).1
      · refine List.pairwise_cons.mpr ⟨?_, ?_⟩
        · intro pr hpr
          rcases layoutSet_subset pr hpr with rfl | h
          · exact (hnew kv (List.mem_cons_self _ _)).2
          · exact hhead pr h
        · exact ih htail (fun pr hpr => hnew pr (List.mem_cons_of_mem _ hpr))

theorem layoutFind_nil (k : Nat) : layoutFind [] k = none := rfl

theorem layoutFind_cons (kv : Nat × Region) (rest : SpanLayout) (k : Nat) :
    layoutFind (kv :: rest) k =
      if kv.1 = k then some kv.2 else layoutFind rest k := by
  by_cases h : kv.1 = k
  · simp [layoutFind, List.find?_cons_of_pos, h]
  · simp [layoutFind, List.find?_cons_of_neg, h]

theorem layoutFind_layoutSet_ne {ly : SpanLayout} {s k : Nat} {r : Region}
    (h : k ≠ s) : layoutFind (layoutSet ly s r) k = layoutFind ly k := by
  induction ly with
  | nil => simp [layoutSet, layoutFind_cons, layoutFind_nil, Ne.symm h]
  | cons kv rest ih =>
      simp only [layoutSet]
      split
      · rename_i hk
        subst hk
        rw [layoutFind_cons, layoutFind_cons]
        simp [Ne.symm h]
      · rw [layoutFind_cons, layoutFind_cons, ih]

theorem layoutFind_append_ne {ly : SpanLayout} {s k : Nat} {r : Region}
    (h : k ≠ s) : layoutFind (ly ++ [(s, r)]) k = layoutFind ly k := by
  induction ly with
  | nil => simp [layoutFind_cons, layoutFind_nil, Ne.symm h]
  | cons kv rest ih =>
      rw [List.cons_append, layoutFind_cons, layoutFind_cons, ih]

theorem layoutGetDefault_find {ly : SpanLayout} {s k : Nat} (h : k ≠ s) :
    layoutFind (layoutGetDefault ly s).2 k = layoutFind ly k := by
  unfold layoutGetDefault
  split
  · rfl
  · exact layoutFind_append_ne h

theorem layoutGetDefault_of_isSome {ly : SpanLayout} {s : Nat}
    (h : (layoutFind ly s).isSome) : (layoutGetDefault ly s).2 = ly := by
  unfold layoutGetDefault
  split
  · rfl
  · rename_i heq
    rw [heq] at h
    simp at h

/-! ## Specification of the placement loop -/

theorem placeStep_w (cw : Int) (sf : Size) (px py : Int)
    (exc : Option Region) (lw : Int) :
    (placeStep cw sf px py exc lw).w = sf.w := by
  unfold placeStep
  cases exc <;> dsimp only <;> split <;> (try split) <;> rfl

theorem placeStep_h (cw : Int) (sf : Size) (px py : Int)
    (exc : Option Region) (lw : Int) :
    (placeStep cw sf px py exc lw).h = sf.h := by
  unfold placeStep
  cases exc <;> dsimp only <;> split <;> (try split) <;> rfl

theorem placeStep_y_ge {cw : Int} {sf : Size} {px py : Int}
    {exc : Option Region} {lw : Int} (hh : 0 ≤ sf.h) :
    py ≤ (placeStep cw sf px py exc lw).y := by
  unfold placeStep
  cases exc <;> dsimp only <;> split <;> (try split) <;> dsimp only <;> omega

theorem placeStep_x_nonneg {cw : Int} {sf : Size} {px py : Int}
    {exc : Option Region} {lw : Int} (hpx : 0 ≤ px) (hw : 0 ≤ sf.w)
    (hexc : ∀ e, exc = some e → 0 ≤ e.x ∧ 0 < e.w) :
    0 ≤ (placeStep cw sf px py exc lw).x := by
  unfold placeStep
  cases exc with
  | none =>
      dsimp only
      split <;> (try split) <;> dsimp only <;> omega
  | some e =>
      have he := hexc e rfl
      dsimp only
      split <;> dsimp only <;> omega

theorem placeLoop_spec {cw : Int} {sf : Size} {rects : List Region} :
    ∀ {fuel : Nat} {px py : Int} {exc : Option Region} {lw : Int}
      {rgn : Region},
    (∀ e ∈ rects, WFrect e) → 0 ≤ sf.w → 0 ≤ sf.h → 0 ≤ px → 0 ≤ py →
    (∀ e, exc = some e → 0 ≤ e.x ∧ 0 < e.w) →
    placeLoop cw sf rects fuel px py exc lw = some rgn →
    rgn.w = sf.w ∧ rgn.h = sf.h ∧ 0 ≤ rgn.x ∧ py ≤ rgn.y ∧
      ∀ e ∈ rects, ¬ rgn.IntersectsRegion e := by
  intro fuel
  induction fuel with
  | zero => intro px py exc lw rgn _ _ _ _ _ _ h; exact absurd h (by simp [placeLoop])
  | succ fuel ih =>
      intro px py exc lw rgn hre hw hh hpx hpy hexc h
      rw [placeLoop] at h
      rcases hfind : ExcludedRegionForRect rects (placeStep cw sf px py exc lw) with - | e
      · rw [hfind] at h
        simp only [Option.some.injEq] at h
        subst h
        exact ⟨placeStep_w _ _ _ _ _ _, placeStep_h _ _ _ _ _ _,
          placeStep_x_nonneg hpx hw hexc, placeStep_y_ge hh,
          excludedRegionForRect_eq_none hfind⟩
      · rw [hfind] at h
        have hmem := (excludedRegionForRect_eq_some hfind).1
        have hwfe := hre e hmem
        have step := ih hre hw hh (placeStep_x_nonneg hpx hw hexc)
          (le_trans hpy (placeStep_y_ge hh))
          (fun e2 he2 => by
            cases he2
            exact ⟨hwfe.1, hwfe.2.2.1⟩) h
        exact ⟨step.1, step.2.1, step.2.2.1,
          le_trans (placeStep_y_ge hh) step.2.2.2.1, step.2.2.2.2⟩

/-! ## Preservation through the span-layout loop -/

theorem entryOK_mono {rects : List Region} {r r0 : Region}
    (h : EntryOK rects r) : EntryOK (addExclRects rects r0) r := by
  rcases h with h | ⟨hwf, e, he, hin⟩
  · exact Or.inl h
  · obtain ⟨e2, he2, hcov⟩ := addExclRects_cover_old e he
    exact Or.inr ⟨hwf, e2, he2, inside_trans hin hcov⟩

theorem layoutSpans_spec {cw : Int} {fuel : Nat} :
    ∀ {sps : List Span} {px py : Int} {ly : SpanLayout}
      {rects : List Region} {ly2 : SpanLayout} {rects2 : List Region},
    (∀ e ∈ rects, WFrect e) →
    (∀ pr ∈ ly, EntryOK rects pr.2) →
    ly.Pairwise (fun a b => ¬ a.2.IntersectsRegion b.2) →
    (∀ sp ∈ sps, 0 < sp.sz.w ∧ 0 < sp.sz.h) →
    0 ≤ px → 0 ≤ py →
    layoutSpans cw fuel sps px py ly rects = some (ly2, rects2) →
    (∀ e ∈ rects2, WFrect e) ∧
    (∀ pr ∈ ly2, EntryOK rects2 pr.2) ∧
    ly2.Pairwise (fun a b => ¬ a.2.IntersectsRegion b.2) ∧
    (∀ e ∈ rects, ∃ e2 ∈ rects2, e.InsideRegion e2) ∧
    (∀ pr ∈ ly2, pr ∈ ly ∨ ∀ e ∈ rects, ¬ pr.2.IntersectsRegion e) := by
  intro sps
  induction sps with
  | nil =>
      intro px py ly rects ly2 rects2 hre hok hpw _ _ _ h
      rw [layoutSpans] at h
      simp only [Option.some.injEq, Prod.mk.injEq] at h
      obtain ⟨rfl, rfl⟩ := h
      exact ⟨hre, hok, hpw, fun e he => ⟨e, he, inside_refl e⟩,
        fun pr hpr => Or.inl hpr⟩
  | cons sp rest ih =>
      intro px py ly rects ly2 rects2 hre hok hpw hsps hpx hpy h
      rw [layoutSpans] at h
      rcases hpl : placeLoop cw sp.sz rects fuel px py none 0 with - | rgn
      · rw [hpl] at h; cases h
      · rw [hpl] at h
        have hsp := hsps sp (List.mem_cons_self _ _)
        obtain ⟨hrw, hrh, hrx, hry, hdisj⟩ :=
          placeLoop_spec hre (le_of_lt hsp.1) (le_of_lt hsp.2) hpx hpy
            (fun e he => by cases he) hpl
        have hne : ¬ (Size.mk rgn.w rgn.h).IsEmpty := by
          unfold Size.IsEmpty
          dsimp only
          rw [hrw, hrh]
          push_neg
          exact ⟨ne_of_gt hsp.1, ne_of_gt hsp.2⟩
        dsimp only at h
        rw [if_neg hne] at h
        have hwfr : WFrect rgn :=
          ⟨hrx, le_trans hpy hry, hrw ▸ hsp.1, hrh ▸ hsp.2⟩
        have hok2 : ∀ pr ∈ layoutSet ly sp.sid rgn,
            EntryOK (addExclRects rects rgn) pr.2 := by
          intro pr hpr
          rcases layoutSet_subset pr hpr with rfl | hpr2
          · exact Or.inr ⟨hwfr, addExclRects_cover_new rects rgn⟩
          · exact entryOK_mono (hok pr hpr2)
        have hnew : ∀ pr ∈ ly,
            ¬ rgn.IntersectsRegion pr.2 ∧ ¬ pr.2.IntersectsRegion rgn := by
          intro pr hpr
          have hdis : ¬ rgn.IntersectsRegion pr.2 := by
            rcases hok pr hpr with hz | ⟨-, e, he, hin⟩
            · rw [hz]; exact not_intersects_zero_right hrx
            · exact not_intersects_of_inside hin (hdisj e he)
          exact ⟨hdis, fun hi => hdis (intersects_symm hi)⟩
        have hpw2 : (layoutSet ly sp.sid rgn).Pairwise
            (fun a b => ¬ a.2.IntersectsRegion b.2) :=
          layoutSet_pairwise hpw hnew
        obtain ⟨ha, hb, hc, hd, he⟩ :=
          ih (addExclRects_wf hre hwfr) hok2 hpw2
            (fun sp2 h2 => hsps sp2 (List.mem_cons_of_mem _ h2)) hrx
            (le_trans hpy hry) h
        refine ⟨ha, hb, hc, ?_, ?_⟩
        · intro e hem
          obtain ⟨e2, he2, hcov⟩ := addExclRects_cover_old e hem
          obtain ⟨e3, he3, hcov2⟩ := hd e2 he2
          exact ⟨e3, he3, inside_trans hcov hcov2⟩
        · intro pr hpr
          rcases he pr hpr with hmem | hdis
          · rcases layoutSet_subset pr hmem with rfl | hmem2
            · exact Or.inr hdisj
            · exact Or.inl hmem2
          · refine Or.inr (fun e hem => ?_)
            obtain ⟨e2, he2, hcov⟩ := addExclRects_cover_old e hem
            exact not_intersects_of_inside hcov (hdis e2 he2)

theorem layoutFind_mem {ly : SpanLayout} {s : Nat} {r : Region}
    (h : layoutFind ly s = some r) : (s, r) ∈ ly := by
  unfold layoutFind at h
  rcases hf : ly.find? (fun pr => pr.1 = s) with - | pr
  · rw [hf] at h; cases h
  · rw [hf] at h
    simp only [Option.map_some', Option.some.injEq] at h
    have hkey : pr.1 = s := by
      have := List.find?_some hf
      simpa using this
    have hmem := List.mem_of_find?_eq_some hf
    have : (s, r) = pr := by
      rcases pr with ⟨k, v⟩
      simp only at hkey h
      rw [hkey, h]
    rw [this]
    exact hmem

theorem entryOK_x_nonneg {rects : List Region} {r : Region}
    (h : EntryOK rects r) : 0 ≤ r.x := by
  rcases h with rfl | ⟨hwf, -⟩
  · exact le_refl 0
  · exact hwf.1

theorem entryOK_y_nonneg {rects : List Region} {r : Region}
    (h : EntryOK rects r) : 0 ≤ r.y := by
  rcases h with rfl | ⟨hwf, -⟩
  · exact le_refl 0
  · exact hwf.2.1

theorem entryOK_w_nonneg {rects : List Region} {r : Region}
    (h : EntryOK rects r) : 0 ≤ r.w := by
  rcases h with rfl | ⟨hwf, -⟩
  · exact le_refl 0
  · exact le_of_lt hwf.2.2.1

theorem layoutGetDefault_subset {ly : SpanLayout} {s : Nat} :
    ∀ pr ∈ (layoutGetDefault ly s).2, pr ∈ ly ∨ pr = (s, Region.zero) := by
  intro pr hpr
  unfold layoutGetDefault at hpr
  split at hpr
  · exact Or.inl hpr
  · rcases List.mem_append.mp hpr with h | h
    · exact Or.inl h
    · simp only [List.mem_singleton] at h
      exact Or.inr h

theorem layoutGetDefault_entryOK {ly : SpanLayout} (s : Nat)
    {rects : List Region} (hok : ∀ pr ∈ ly, EntryOK rects pr.2) :
    EntryOK rects (layoutGetDefault ly s).1 := by
  unfold layoutGetDefault
  rcases hf : layoutFind ly s with - | r
  · exact Or.inl rfl
  · exact hok (s, r) (layoutFind_mem hf)

theorem layoutGetDefault_ok {ly : SpanLayout} {s : Nat} {rects : List Region}
    (hok : ∀ pr ∈ ly, EntryOK rects pr.2) :
    ∀ pr ∈ (layoutGetDefault ly s).2, EntryOK rects pr.2 := by
  intro pr hpr
  rcases layoutGetDefault_subset pr hpr with h | rfl
  · exact hok pr h
  · exact Or.inl rfl

theorem layoutGetDefault_pairwise {ly : SpanLayout} {s : Nat}
    {rects : List Region} (hok : ∀ pr ∈ ly, EntryOK rects pr.2)
    (hpw : ly.Pairwise (fun a b => ¬ a.2.IntersectsRegion b.2)) :
    (layoutGetDefault ly s).2.Pairwise
      (fun a b => ¬ a.2.IntersectsRegion b.2) := by
  unfold layoutGetDefault
  split
  · exact hpw
  · refine List.pairwise_append.mpr ⟨hpw, List.pairwise_singleton _ _, ?_⟩
    intro a ha b hb
    simp only [List.mem_singleton] at hb
    subst hb
    exact not_intersects_zero_right (entryOK_x_nonneg (hok a ha))

/-- Everything `LayoutSpansStartingAt` preserves or establishes: the frame
and span sequence are untouched, the invariant parts hold afterwards, old
exclusion rectangles stay covered, and every new layout entry is either the
default zero region or disjoint from every pre-existing exclusion
rectangle. -/
theorem layoutStart_spec {fuel k : Nat} {tc tc2 : TextContainer}
    (hre : ∀ e ∈ tc.ExclusionRects, WFrect e)
    (hok : ∀ pr ∈ tc.layout, EntryOK tc.ExclusionRects pr.2)
    (hpw : tc.layout.Pairwise (fun a b => ¬ a.2.IntersectsRegion b.2))
    (hsps : ∀ sp ∈ tc.spans, 0 < sp.sz.w ∧ 0 < sp.sz.h)
    (h : tc.LayoutSpansStartingAt fuel k = some tc2) :
    tc2.frame = tc.frame ∧ tc2.spans = tc.spans ∧
    (∀ e ∈ tc2.ExclusionRects, WFrect e) ∧
    (∀ pr ∈ tc2.layout, EntryOK tc2.ExclusionRects pr.2) ∧
    tc2.layout.Pairwise (fun a b => ¬ a.2.IntersectsRegion b.2) ∧
    (∀ e ∈ tc.ExclusionRects, ∃ e2 ∈ tc2.ExclusionRects, e.InsideRegion e2) ∧
    (∀ pr ∈ tc2.layout, pr ∈ tc.layout ∨ pr.2 = Region.zero ∨
      ∀ e ∈ tc.ExclusionRects, ¬ pr.2.IntersectsRegion e) := by
  unfold TextContainer.LayoutSpansStartingAt at h
  rcases hdrop : tc.spans.drop k with - | ⟨sp, rest⟩
  · rw [hdrop] at h; cases h
  · rw [hdrop] at h
    dsimp only at h
    have hsub : ∀ sp2 ∈ sp :: rest, 0 < sp2.sz.w ∧ 0 < sp2.sz.h := by
      intro sp2 h2
      exact hsps sp2 (List.drop_subset k tc.spans (hdrop ▸ h2))
    by_cases hk : k = 0
    · rw [if_pos hk] at h
      rcases Option.map_eq_some'.mp h with ⟨pr, hls, rfl⟩
      obtain ⟨ha, hb, hc, hd, he⟩ :=
        layoutSpans_spec hre hok hpw hsub (le_refl 0)
          (le_of_lt (hsub sp (List.mem_cons_self _ _)).2) hls
      refine ⟨rfl, rfl, ha, hb, hc, hd, ?_⟩
      intro pr2 hpr2
      rcases he pr2 hpr2 with h2 | h2
      · exact Or.inl h2
      · exact Or.inr (Or.inr h2)
    · rw [if_neg hk] at h
      rcases hh : (tc.spans.drop (k - 1)).head? with - | prev
      · rw [hh] at h; cases h
      · rw [hh] at h
        dsimp only at h
        rcases Option.map_eq_some'.mp h with ⟨pr, hls, rfl⟩
        have hgd := layoutGetDefault_entryOK prev.sid hok
        have hpx : 0 ≤ (layoutGetDefault tc.layout prev.sid).1.x +
            (layoutGetDefault tc.layout prev.sid).1.w + 1 := by
          have h1 := entryOK_x_nonneg hgd
          have h2 := entryOK_w_nonneg hgd
          omega
        obtain ⟨ha, hb, hc, hd, he⟩ :=
          layoutSpans_spec hre (layoutGetDefault_ok hok)
            (layoutGetDefault_pairwise hok hpw) hsub hpx
            (entryOK_y_nonneg hgd) hls
        refine ⟨rfl, rfl, ha, hb, hc, hd, ?_⟩
        intro pr2 hpr2
        rcases he pr2 hpr2 with h2 | h2
        · rcases layoutGetDefault_subset pr2 h2 with h3 | rfl
          · exact Or.inl h3
          · exact Or.inr (Or.inl rfl)
        · exact Or.inr (Or.inr h2)

/-! ## Preservation through the public operations -/

theorem insertAt_subset {a : Span} :
    ∀ {n : Nat} {l : List Span}, ∀ x ∈ insertAt n a l, x = a ∨ x ∈ l := by
  intro n l
  induction l generalizing n with
  | nil =>
      intro x hx
      simp only [insertAt, List.mem_singleton] at hx
      exact Or.inl hx
  | cons b rest ih =>
      intro x hx
      rcases n with - | m
      · simp only [insertAt] at hx
        rcases List.mem_cons.mp hx with h | h
        · exact Or.inl h
        · exact Or.inr h
      · simp only [insertAt] at hx
        rcases List.mem_cons.mp hx with h | h
        · exact Or.inr (h ▸ List.mem_cons_self _ _)
        · rcases ih x h with h2 | h2
          · exact Or.inl h2
          · exact Or.inr (List.mem_cons_of_mem _ h2)

theorem eraseAt_subset :
    ∀ {n : Nat} {l : List Span}, ∀ x ∈ eraseAt n l, x ∈ l := by
  intro n l
  induction l generalizing n with
  | nil => intro x hx; simp [eraseAt] at hx
  | cons b rest ih =>
      intro x hx
      rcases n with - | m
      · exact List.mem_cons_of_mem _ (by simpa [eraseAt] using hx)
      · simp only [eraseAt] at hx
        rcases List.mem_cons.mp hx with h | h
        · exact h ▸ List.mem_cons_self _ _
        · exact List.mem_cons_of_mem _ (ih x h)

theorem applyOp_spec {fuel : Nat} {tc tc2 : TextContainer} {op : ContOp}
    (hinv : INV tc) (hwf : OpWF op) (h : applyOp fuel tc op = some tc2) :
    INV tc2 ∧ tc2.frame = tc.frame ∧
    (∀ e ∈ tc.ExclusionRects, ∃ e2 ∈ tc2.ExclusionRects, e.InsideRegion e2) ∧
    (∀ pr ∈ tc2.layout, pr ∈ tc.layout ∨ pr.2 = Region.zero ∨
      ∀ e ∈ tc.ExclusionRects, ¬ pr.2.IntersectsRegion e) := by
  obtain ⟨hre, hok, hpw, hsps⟩ := hinv
  cases op with
  | append sp =>
      simp only [applyOp, TextContainer.AppendSpan] at h
      have hsps2 : ∀ sp2 ∈ tc.spans ++ [sp], 0 < sp2.sz.w ∧ 0 < sp2.sz.h := by
        intro sp2 h2
        rcases List.mem_append.mp h2 with h2 | h2
        · exact hsps sp2 h2
        · simp only [List.mem_singleton] at h2
          exact h2 ▸ hwf
      obtain ⟨hfr, hspn, ha, hb, hc, hd, he⟩ :=
        @layoutStart_spec fuel (tc.spans.length)
          { tc with spans := tc.spans ++ [sp] } tc2 hre hok hpw hsps2 h
      exact ⟨⟨ha, hb, hc, fun sp2 h2 => hsps2 sp2 (by rw [hspn] at h2; exact h2)⟩,
        hfr, hd, he⟩
  | insertAfter sp ex =>
      cases ex with
      | none =>
          simp only [applyOp, TextContainer.InsertSpanAfter,
            Option.some.injEq] at h
          subst h
          refine ⟨⟨hre, hok, hpw, ?_⟩, rfl,
            fun e he => ⟨e, he, inside_refl e⟩, fun pr hpr => Or.inl hpr⟩
          intro sp2 h2
          rcases List.mem_cons.mp h2 with h2 | h2
          · exact h2 ▸ hwf
          · exact hsps sp2 h2
      | some e =>
          simp only [applyOp, TextContainer.InsertSpanAfter] at h
          rcases hfi : findSpanIdx e tc.spans with - | i
          · rw [hfi] at h; cases h
          · rw [hfi] at h
            have hsps2 : ∀ sp2 ∈ insertAt (i + 1) sp tc.spans,
                0 < sp2.sz.w ∧ 0 < sp2.sz.h := by
              intro sp2 h2
              rcases insertAt_subset sp2 h2 with h2 | h2
              · exact h2 ▸ hwf
              · exact hsps sp2 h2
            obtain ⟨hfr, hspn, ha, hb, hc, hd, he⟩ :=
              @layoutStart_spec fuel (i + 2)
                { tc with spans := insertAt (i + 1) sp tc.spans } tc2
                hre hok hpw hsps2 h
            exact ⟨⟨ha, hb, hc, fun sp2 h2 => hsps2 sp2 (by rw [hspn] at h2; exact h2)⟩,
              hfr, hd, he⟩
  | remove sid =>
      simp only [applyOp, TextContainer.RemoveSpan] at h
      rcases hfi : findSpanIdx sid tc.spans with - | k
      · rw [hfi] at h
        simp only [Option.some.injEq] at h
        subst h
        exact ⟨⟨hre, hok, hpw, hsps⟩, rfl,
          fun e he => ⟨e, he, inside_refl e⟩, fun pr hpr => Or.inl hpr⟩
      · rw [hfi] at h
        rcases k with - | j
        · cases h
        · dsimp only at h
          have hsps2 : ∀ sp2 ∈ eraseAt (j + 1) tc.spans,
              0 < sp2.sz.w ∧ 0 < sp2.sz.h :=
            fun sp2 h2 => hsps sp2 (eraseAt_subset sp2 h2)
          obtain ⟨hfr, hspn, ha, hb, hc, hd, he⟩ :=
            @layoutStart_spec fuel j
              { tc with spans := eraseAt (j + 1) tc.spans } tc2
              hre hok hpw hsps2 h
          exact ⟨⟨ha, hb, hc, fun sp2 h2 => hsps2 sp2 (by rw [hspn] at h2; exact h2)⟩,
            hfr, hd, he⟩
  | addExcl r =>
      simp only [applyOp, TextContainer.AddExclusionRect] at h
      split at h
      · cases h
      · simp only [Option.some.injEq] at h
        subst h
        have hwfr : WFrect r := ⟨hwf.1, hwf.2.1, hwf.2.2.1, hwf.2.2.2⟩
        refine ⟨⟨addExclRects_wf hre hwfr, ?_, hpw, hsps⟩, rfl,
          fun e he => addExclRects_cover_old e he, fun pr hpr => Or.inl hpr⟩
        intro pr hpr
        exact entryOK_mono (hok pr hpr)

theorem runOps_spec {fuel : Nat} :
    ∀ {ops : List ContOp} {tc tc2 : TextContainer},
    INV tc → (∀ op ∈ ops, OpWF op) → runOps fuel ops tc = some tc2 →
    INV tc2 ∧ tc2.frame = tc.frame ∧
    (∀ e ∈ tc.ExclusionRects, ∃ e2 ∈ tc2.ExclusionRects, e.InsideRegion e2) ∧
    (∀ pr ∈ tc2.layout, pr ∈ tc.layout ∨ pr.2 = Region.zero ∨
      ∀ e ∈ tc.ExclusionRects, ¬ pr.2.IntersectsRegion e) := by
  intro ops
  induction ops with
  | nil =>
      intro tc tc2 hinv _ h
      simp only [runOps, Option.some.injEq] at h
      subst h
      exact ⟨hinv, rfl, fun e he => ⟨e, he, inside_refl e⟩,
        fun pr hpr => Or.inl hpr⟩
  | cons op rest ih =>
      intro tc tc2 hinv hwf h
      simp only [runOps] at h
      rcases happ : applyOp fuel tc op with - | tcm
      · rw [happ] at h; cases h
      · rw [happ] at h
        simp only [Option.some_bind] at h
        obtain ⟨hinvm, hfrm, hcovm, hnewm⟩ :=
          applyOp_spec hinv (hwf op (List.mem_cons_self _ _)) happ
        obtain ⟨hinv2, hfr2, hcov2, hnew2⟩ :=
          ih hinvm (fun op2 h2 => hwf op2 (List.mem_cons_of_mem _ h2)) h
        refine ⟨hinv2, hfr2.trans hfrm, ?_, ?_⟩
        · intro e he
          obtain ⟨e2, he2, hc1⟩ := hcovm e he
          obtain ⟨e3, he3, hc2⟩ := hcov2 e2 he2
          exact ⟨e3, he3, inside_trans hc1 hc2⟩
        · intro pr hpr
          rcases hnew2 pr hpr with h2 | h2 | h2
          · exact hnewm pr h2
          · exact Or.inr (Or.inl h2)
          · refine Or.inr (Or.inr (fun e he => ?_))
            obtain ⟨e2, he2, hc1⟩ := hcovm e he
            exact not_intersects_of_inside hc1 (h2 e2 he2)

theorem INV_init (f : Size) : INV (TextContainer.init f) :=
  ⟨fun e he => absurd he (List.not_mem_nil e),
   fun pr hpr => absurd hpr (List.not_mem_nil pr),
   List.Pairwise.nil,
   fun sp hsp => absurd hsp (List.not_mem_nil sp)⟩

/-! ## Claim theorems -/

/-- C1: after any successful sequence of `AppendSpan` / `InsertSpanAfter` /
`RemoveSpan` / `AddExclusionRect` operations on a fresh container (with
positive span frames and well-formed external exclusion rectangles), no two
rectangles in the layout cache overlap each other, and no rectangle committed
after some intermediate point overlaps an exclusion rectangle that already
existed at that point. -/
theorem C1_layout_no_overlap (fuel : Nat) (f : Size) (ops1 ops2 : List ContOp)
    (st1 st2 : TextContainer)
    (hwf1 : ∀ op ∈ ops1, OpWF op) (hwf2 : ∀ op ∈ ops2, OpWF op)
    (h1 : runOps fuel ops1 (TextContainer.init f) = some st1)
    (h2 : runOps fuel ops2 st1 = some st2) :
    st2.layout.Pairwise (fun a b => ¬ a.2.IntersectsRegion b.2) ∧
    ∀ pr ∈ st2.layout, pr ∉ st1.layout →
      ∀ e ∈ st1.ExclusionRects, ¬ pr.2.IntersectsRegion e := by
  obtain ⟨hinv1, -, -, -⟩ := runOps_spec (INV_init f) hwf1 h1
  obtain ⟨hinv2, -, -, hnew⟩ := runOps_spec hinv1 hwf2 h2
  refine ⟨hinv2.2.2.1, ?_⟩
  intro pr hpr hnot e he
  rcases hnew pr hpr with h | h | h
  · exact absurd h hnot
  · rw [h]
    exact not_intersects_zero_left (hinv1.1 e he).1
  · exact h e he

/-- Witness for C1 at a concrete trace: one external exclusion rectangle,
then one appended span; the committed rectangle avoids the pre-existing
exclusion rectangle. -/
theorem C1_layout_no_overlap_witness :
    ¬ (Region.mk 51 20 100 20).IntersectsRegion ⟨0, 20, 50, 20⟩ :=
  (C1_layout_no_overlap 20 ⟨300, 100⟩ [ContOp.addExcl ⟨0, 20, 50, 20⟩]
      [ContOp.append ⟨1, ⟨100, 20⟩⟩]
      ⟨⟨300, 100⟩, [], [], [⟨0, 20, 50, 20⟩]⟩
      ⟨⟨300, 100⟩, [⟨1, ⟨100, 20⟩⟩], [(1, ⟨51, 20, 100, 20⟩)],
        [⟨0, 20, 50, 20⟩, ⟨51, 20, 100, 20⟩]⟩
      (by decide) (by decide) (by decide) (by decide)).2
    (1, ⟨51, 20, 100, 20⟩) (by decide) (by decide) ⟨0, 20, 50, 20⟩ (by decide)

/-- C7: frame `300×100`, spans `100×20` and `250×20` appended in order with
no exclusions: span 1 is committed at `(0,20)` size `100×20` and span 2
wraps to `(0,40)` size `250×20`. -/
theorem C7_two_spans_concrete :
    (runOps 20 [ContOp.append ⟨1, ⟨100, 20⟩⟩, ContOp.append ⟨2, ⟨250, 20⟩⟩]
        (TextContainer.init ⟨300, 100⟩)).map
      (fun st => (layoutFind st.layout 1, layoutFind st.layout 2)) =
    some (some ⟨0, 20, 100, 20⟩, some ⟨0, 40, 250, 20⟩) := by decide

/-- C8: frame `300×100` with exclusion rectangle `(0,20)` size `50×20` added
before the span: a `100×20` span is committed at `(51,20)`, just past the
exclusion rectangle's right edge. -/
theorem C8_exclusion_concrete :
    (runOps 20 [ContOp.addExcl ⟨0, 20, 50, 20⟩, ContOp.append ⟨1, ⟨100, 20⟩⟩]
        (TextContainer.init ⟨300, 100⟩)).map
      (fun st => layoutFind st.layout 1) = some (some ⟨51, 20, 100, 20⟩) := by
  decide

/-- C2 counterexample: with spans 1 and 2 committed at `(0,20)` and
`(101,20)`, removing the span at position `k = 1` changes the rectangle of
span 1 at position `0 < k` from `(0,20)` to `(0,40)` (re-layout restarts at
the position *before* the edit point), refuting the claim as stated. -/
theorem C2_counterexample :
    (runOps 20 [ContOp.append ⟨1, ⟨100, 20⟩⟩, ContOp.append ⟨2, ⟨100, 20⟩⟩]
        (TextContainer.init ⟨300, 100⟩)).map
      (fun st => (layoutFind st.layout 1, layoutFind st.layout 2)) =
      some (some ⟨0, 20, 100, 20⟩, some ⟨101, 20, 100, 20⟩)
    ∧ (runOps 20 [ContOp.append ⟨1, ⟨100, 20⟩⟩, ContOp.append ⟨2, ⟨100, 20⟩⟩,
        ContOp.remove 2] (TextContainer.init ⟨300, 100⟩)).map
      (fun st => layoutFind st.layout 1) = some (some ⟨0, 40, 100, 20⟩)
    ∧ findSpanIdx 2 [⟨1, ⟨100, 20⟩⟩, ⟨2, ⟨100, 20⟩⟩] = some 1 :=
  ⟨by decide, by decide, by decide⟩

/-- C3: `InsertSpanAfter(newSpan, NULL)` pushes the span to the front and
returns without any re-layout, so the new span never gets a committed
rectangle; and `InsertSpanAfter(newSpan, last)` calls
`LayoutSpansStartingAt(end())`, whose own assertion fails. -/
theorem C3_insert_no_relayout :
    (((TextContainer.init ⟨300, 100⟩).AppendSpan 20 ⟨1, ⟨100, 20⟩⟩).bind
        (fun st => st.InsertSpanAfter 20 ⟨2, ⟨50, 20⟩⟩ none)).map
      (fun st => (st.spans.map Span.sid, layoutFind st.layout 2)) =
      some ([2, 1], none)
    ∧ ((TextContainer.init ⟨300, 100⟩).AppendSpan 20 ⟨1, ⟨100, 20⟩⟩).bind
        (fun st => st.InsertSpanAfter 20 ⟨2, ⟨50, 20⟩⟩ (some 1)) = none :=
  ⟨by decide, by decide⟩

/-- C4: after `RemoveSpan` erases span 2 from the sequence, its layout-cache
entry survives, and `SpanAtPoint` still returns the removed span at a point
inside its stale rectangle. -/
theorem C4_remove_stale_layout :
    (runOps 20 [ContOp.append ⟨1, ⟨100, 20⟩⟩, ContOp.append ⟨2, ⟨100, 20⟩⟩,
        ContOp.remove 2] (TextContainer.init ⟨300, 100⟩)).map
      (fun st => (st.spans.map Span.sid, layoutFind st.layout 2,
        st.SpanAtPoint ⟨150, 25⟩)) =
    some ([1], some ⟨101, 20, 100, 20⟩, some 2) := by decide

/-- C5 counterexample: adding `(0,0)10×10`, `(20,0)10×10` and then
`(0,0)30×10` (all non-empty) replaces only the *first* contained rectangle,
leaving `(20,0)10×10` as a strict subset of `(0,0)30×10` in the exclusion
set, refuting the claimed minimality invariant. -/
theorem C5_counterexample :
    (runOps 20 [ContOp.addExcl ⟨0, 0, 10, 10⟩, ContOp.addExcl ⟨20, 0, 10, 10⟩,
        ContOp.addExcl ⟨0, 0, 30, 10⟩] (TextContainer.init ⟨300, 100⟩)).map
      TextContainer.ExclusionRects = some [⟨0, 0, 30, 10⟩, ⟨20, 0, 10, 10⟩]
    ∧ strictSub ⟨20, 0, 10, 10⟩ ⟨0, 0, 30, 10⟩ :=
  ⟨by decide, by decide⟩

/-- One `AddExclusionRect` call preserves the no-strict-subset invariant
provided the new rectangle strictly contains at most one member of the set. -/
theorem addExclRects_noStrictSub {acc : List Region} {r : Region}
    (hns : NoStrictSub acc)
    (hcount : acc.countP (fun e => decide (strictSub e r)) ≤ 1) :
    NoStrictSub (addExclRects acc r) := by
  unfold NoStrictSub at *
  induction acc with
  | nil => simp [addExclRects, List.pairwise_singleton]
  | cons e rest ih =>
      rcases List.pairwise_cons.mp hns with ⟨hhead, htail⟩
      simp only [addExclRects]
      split
      · exact hns
      · split
        · rename_i hnotin hin
          have hss : strictSub e r := ⟨hin, hnotin⟩
          have hrest0 : ∀ p ∈ rest, ¬ strictSub p r := by
            rw [List.countP_cons, decide_eq_true hss, if_pos rfl] at hcount
            have h0 : rest.countP (fun e => decide (strictSub e r)) = 0 := by
              omega
            intro p hp hc
            have := List.countP_eq_zero.mp h0 p hp
            simp only [decide_eq_true_eq] at this
            exact this hc
          refine List.pairwise_cons.mpr ⟨?_, htail⟩
          intro p hp
          constructor
          · rintro ⟨hrp, -⟩
            have hep : strictSub e p := by
              refine ⟨inside_trans hin hrp, fun hpe => ?_⟩
              exact hnotin (inside_trans hrp hpe)
            exact (hhead p hp).1 hep
          · exact hrest0 p hp
        · rename_i hnotin hnotin2
          refine List.pairwise_cons.mpr ⟨?_, ih htail ?_⟩
          · intro p hp
            rcases addExclRects_subset hp with rfl | hp2
            · exact ⟨fun hss => hnotin2 hss.1, fun hss => hnotin hss.1⟩
            · exact hhead p hp2
          · rw [List.countP_cons] at hcount
            omega

theorem addSeq_noStrictSub :
    ∀ {rs : List Region} {acc : List Region}, NoStrictSub acc →
    AtMostOneB acc rs = true → NoStrictSub (rs.foldl addExclRects acc) := by
  intro rs
  induction rs with
  | nil => intro acc h _; simpa using h
  | cons r rest ih =>
      intro acc h hb
      simp only [AtMostOneB, Bool.and_eq_true, decide_eq_true_eq] at hb
      exact ih (addExclRects_noStrictSub h hb.1) hb.2

theorem runOps_addExcl_rects {fuel : Nat} :
    ∀ {rs : List Region} {tc st : TextContainer},
    runOps fuel (rs.map ContOp.addExcl) tc = some st →
    st.ExclusionRects = rs.foldl addExclRects tc.ExclusionRects := by
  intro rs
  induction rs with
  | nil =>
      intro tc st h
      simp only [List.map_nil, runOps, Option.some.injEq] at h
      subst h
      rfl
  | cons r rest ih =>
      intro tc st h
      simp only [List.map_cons, runOps, applyOp,
        TextContainer.AddExclusionRect] at h
      split at h
      · cases h
      · simp only [Option.some_bind] at h
        rw [List.foldl_cons]
        exact ih h

/-- C5 (amended): after a successful sequence of `AddExclusionRect` calls
with non-empty rectangles, in which each new rectangle strictly contains at
most one rectangle of the set present at its call, no rectangle in the
exclusion set is a strict subset of another.  Each call discards a rectangle
contained in an existing one, replaces the *first* existing rectangle that
the new one contains, and otherwise appends — so when a new rectangle
swallows two or more existing ones at once, only the first is replaced and
the invariant can fail (see the counterexample). -/
theorem C5_minimality_restricted (fuel : Nat) (f : Size) (rs : List Region)
    (st : TextContainer) (hone : AtMostOneB [] rs = true)
    (h : runOps fuel (rs.map ContOp.addExcl) (TextContainer.init f) = some st) :
    NoStrictSub st.ExclusionRects := by
  rw [runOps_addExcl_rects h]
  exact addSeq_noStrictSub List.Pairwise.nil hone

/-- Witness for C5 (amended) at a concrete two-rectangle trace. -/
theorem C5_minimality_restricted_witness :
    NoStrictSub [⟨0, 0, 10, 10⟩, ⟨20, 0, 10, 10⟩] :=
  C5_minimality_restricted 20 ⟨300, 100⟩ [⟨0, 0, 10, 10⟩, ⟨20, 0, 10, 10⟩]
    ⟨⟨300, 100⟩, [], [], [⟨0, 0, 10, 10⟩, ⟨20, 0, 10, 10⟩]⟩
    (by decide) (by decide)

/-! ## Locality of incremental re-layout (claim C2) -/

theorem layoutSpans_find_untouched {cw : Int} {fuel : Nat} :
    ∀ {sps : List Span} {px py : Int} {ly : SpanLayout}
      {rects : List Region} {ly2 : SpanLayout} {rects2 : List Region}
      {sid : Nat},
    sid ∉ sps.map Span.sid →
    layoutSpans cw fuel sps px py ly rects = some (ly2, rects2) →
    layoutFind ly2 sid = layoutFind ly sid := by
  intro sps
  induction sps with
  | nil =>
      intro px py ly rects ly2 rects2 sid _ h
      simp only [layoutSpans, Option.some.injEq, Prod.mk.injEq] at h
      rw [h.1]
  | cons sp rest ih =>
      intro px py ly rects ly2 rects2 sid hsid h
      rw [layoutSpans] at h
      rcases hpl : placeLoop cw sp.sz rects fuel px py none 0 with - | rgn
      · rw [hpl] at h; cases h
      · rw [hpl] at h
        dsimp only at h
        split at h
        · cases h
        · simp only [List.map_cons, List.mem_cons] at hsid
          push_neg at hsid
          have := ih hsid.2 h
          rw [this, layoutFind_layoutSet_ne hsid.1]

theorem mem_of_head?_some {l : List Span} {x : Span}
    (h : l.head? = some x) : x ∈ l := by
  cases l with
  | nil => cases h
  | cons a t =>
      simp only [List.head?_cons, Option.some.injEq] at h
      exact h ▸ List.mem_cons_self _ _

theorem layoutStart_find_untouched {fuel k : Nat} {tc tc2 : TextContainer}
    (sid : Nat)
    (hsid : sid ∉ (tc.spans.drop k).map Span.sid)
    (hprev : k = 0 ∨ ∀ prev : Span,
        (tc.spans.drop (k - 1)).head? = some prev →
        prev.sid ≠ sid ∨ (layoutFind tc.layout prev.sid).isSome)
    (h : tc.LayoutSpansStartingAt fuel k = some tc2) :
    layoutFind tc2.layout sid = layoutFind tc.layout sid := by
  unfold TextContainer.LayoutSpansStartingAt at h
  rcases hdrop : tc.spans.drop k with - | ⟨sp, rest⟩
  · rw [hdrop] at h; cases h
  · rw [hdrop] at h
    dsimp only at h
    rw [hdrop] at hsid
    by_cases hk : k = 0
    · rw [if_pos hk] at h
      rcases Option.map_eq_some'.mp h with ⟨pr, hls, rfl⟩
      exact layoutSpans_find_untouched hsid hls
    · rw [if_neg hk] at h
      rcases hh : (tc.spans.drop (k - 1)).head? with - | prev
      · rw [hh] at h; cases h
      · rw [hh] at h
        dsimp only at h
        rcases Option.map_eq_some'.mp h with ⟨pr, hls, rfl⟩
        have hgdfind : layoutFind (layoutGetDefault tc.layout prev.sid).2 sid
            = layoutFind tc.layout sid := by
          rcases hprev with hk0 | hp
          · exact absurd hk0 hk
          · rcases hp prev hh with hne | hsome
            · exact layoutGetDefault_find (Ne.symm hne)
            · rw [layoutGetDefault_of_isSome hsome]
        exact (layoutSpans_find_untouched hsid hls).trans hgdfind

theorem findSpanIdx_lt_length {sid : Nat} :
    ∀ {l : List Span} {i : Nat}, findSpanIdx sid l = some i → i < l.length := by
  intro l
  induction l with
  | nil => intro i h; cases h
  | cons sp rest ih =>
      intro i h
      simp only [findSpanIdx] at h
      split at h
      · simp only [Option.some.injEq] at h
        subst h
        simp
      · rcases hf : findSpanIdx sid rest with - | j
        · rw [hf] at h; cases h
        · rw [hf] at h
          simp only [Option.map_some', Option.some.injEq] at h
          subst h
          have := ih hf
          simp only [List.length_cons]
          omega

theorem insertAt_drop_self {a : Span} :
    ∀ {l : List Span} {n : Nat}, n ≤ l.length →
    (insertAt n a l).drop n = a :: l.drop n := by
  intro l
  induction l with
  | nil =>
      intro n hn
      have : n = 0 := by simpa using hn
      subst this
      rfl
  | cons b rest ih =>
      intro n hn
      rcases n with - | m
      · rfl
      · simp only [insertAt, List.drop_succ_cons]
        exact ih (by simpa using hn)

theorem insertAt_drop_succ {a : Span} {l : List Span} {n : Nat}
    (hn : n ≤ l.length) : (insertAt n a l).drop (n + 1) = l.drop n := by
  have h1 : (insertAt n a l).drop (n + 1) =
      ((insertAt n a l).drop n).drop 1 := by
    rw [List.drop_drop]
  rw [h1, insertAt_drop_self hn]
  rfl

theorem eraseAt_drop_subset :
    ∀ {l : List Span} {j : Nat}, ∀ x ∈ (eraseAt (j + 1) l).drop j,
      x ∈ l.drop j := by
  intro l
  induction l with
  | nil => intro j x hx; simp [eraseAt] at hx
  | cons b rest ih =>
      intro j x hx
      rcases j with - | m
      · simp only [eraseAt, List.drop_zero] at hx ⊢
        rcases List.mem_cons.mp hx with h | h
        · exact h ▸ List.mem_cons_self _ _
        · exact List.mem_cons_of_mem _ (eraseAt_subset x h)
      · simp only [eraseAt, List.drop_succ_cons] at hx ⊢
        exact ih x hx

theorem nodup_take_drop_disjoint {l : List Span}
    (hnd : (l.map Span.sid).Nodup) (m : Nat) :
    ∀ sp ∈ l.take m, sp.sid ∉ (l.drop m).map Span.sid := by
  have hsplit : l.map Span.sid =
      (l.take m).map Span.sid ++ (l.drop m).map Span.sid := by
    rw [← List.map_append, List.take_append_drop]
  rw [hsplit] at hnd
  rcases List.nodup_append.mp hnd with ⟨-, -, hdisj⟩
  intro sp hsp hmem
  exact hdisj (List.mem_map_of_mem Span.sid hsp) hmem

/-- C2 (amended): when every span has a committed rectangle and span
identities are distinct, *inserting* a span at position `k` leaves the
rectangles of all spans at positions `< k` unchanged (front insertion leaves
the whole cache unchanged), but *removing* the span at position `k` restarts
layout at position `k − 1`, so only the rectangles of spans at positions
`< k − 1` are guaranteed unchanged — the span at position `k − 1` is re-laid
out (the counterexample shows its rectangle really changes). -/
theorem C2_incremental_locality (fuel : Nat) (tc : TextContainer)
    (hnd : (tc.spans.map Span.sid).Nodup)
    (hcom : ∀ sp ∈ tc.spans, (layoutFind tc.layout sp.sid).isSome) :
    (∀ newSpan tc2, tc.InsertSpanAfter fuel newSpan none = some tc2 →
      tc2.layout = tc.layout) ∧
    (∀ newSpan e i tc2, newSpan.sid ∉ tc.spans.map Span.sid →
      findSpanIdx e tc.spans = some i →
      tc.InsertSpanAfter fuel newSpan (some e) = some tc2 →
      ∀ sp ∈ tc.spans.take (i + 1),
        layoutFind tc2.layout sp.sid = layoutFind tc.layout sp.sid) ∧
    (∀ s k tc2, findSpanIdx s tc.spans = some k →
      tc.RemoveSpan fuel s = some tc2 →
      ∀ sp ∈ tc.spans.take (k - 1),
        layoutFind tc2.layout sp.sid = layoutFind tc.layout sp.sid) := by
  refine ⟨?_, ?_, ?_⟩
  · intro newSpan tc2 h
    simp only [TextContainer.InsertSpanAfter, Option.some.injEq] at h
    rw [← h]
  · intro newSpan e i tc2 hfresh hfi h sp hsp
    simp only [TextContainer.InsertSpanAfter] at h
    rw [hfi] at h
    dsimp only at h
    have hlen : i + 1 ≤ tc.spans.length := findSpanIdx_lt_length hfi
    have hdropins : (insertAt (i + 1) newSpan tc.spans).drop (i + 2) =
        tc.spans.drop (i + 1) := insertAt_drop_succ hlen
    refine (layoutStart_find_untouched sp.sid ?_ ?_ h).trans rfl
    · show sp.sid ∉ ((insertAt (i + 1) newSpan tc.spans).drop (i + 2)).map
        Span.sid
      rw [hdropins]
      exact nodup_take_drop_disjoint hnd (i + 1) sp hsp
    · refine Or.inr (fun prev hprev => ?_)
      have : (insertAt (i + 1) newSpan tc.spans).drop (i + 2 - 1) =
          newSpan :: tc.spans.drop (i + 1) := insertAt_drop_self hlen
      rw [this] at hprev
      simp only [List.head?_cons, Option.some.injEq] at hprev
      subst hprev
      refine Or.inl (fun hid => ?_)
      exact hfresh (hid ▸ List.mem_map_of_mem Span.sid
        (List.take_subset (i + 1) tc.spans hsp))
  · intro s k tc2 hfi h sp hsp
    simp only [TextContainer.RemoveSpan] at h
    rw [hfi] at h
    rcases k with - | j
    · cases h
    · dsimp only at h
      refine (layoutStart_find_untouched sp.sid ?_ ?_ h).trans rfl
      · show sp.sid ∉ ((eraseAt (j + 1) tc.spans).drop j).map Span.sid
        intro hmem
        rcases List.mem_map.mp hmem with ⟨y, hy, hysid⟩
        have hy2 : y ∈ tc.spans.drop j := eraseAt_drop_subset y hy
        have hsp2 : sp ∈ tc.spans.take j := by
          simpa using hsp
        exact nodup_take_drop_disjoint hnd j sp hsp2
          (hysid ▸ List.mem_map_of_mem Span.sid hy2)
      · refine Or.inr (fun prev hprev => ?_)
        refine Or.inr ?_
        have hmem : prev ∈ eraseAt (j + 1) tc.spans :=
          List.drop_subset _ _ (mem_of_head?_some hprev)
        exact hcom prev (eraseAt_subset prev hmem)

/-- Witness for C2 (amended): inserting span 3 after span 1 in a container
holding committed spans 1 and 2 leaves span 1's rectangle unchanged. -/
theorem C2_incremental_locality_witness :
    layoutFind
      [(1, ⟨0, 20, 100, 20⟩), (2, ⟨1, 0, 250, 20⟩), (3, ⟨0, 0, 0, 0⟩)] 1 =
    layoutFind [(1, ⟨0, 20, 100, 20⟩), (2, ⟨0, 40, 250, 20⟩)] 1 :=
  (C2_incremental_locality 20
      ⟨⟨300, 100⟩, [⟨1, ⟨100, 20⟩⟩, ⟨2, ⟨250, 20⟩⟩],
        [(1, ⟨0, 20, 100, 20⟩), (2, ⟨0, 40, 250, 20⟩)],
        [⟨0, 20, 100, 20⟩, ⟨0, 40, 250, 20⟩]⟩
      (by decide) (by decide)).2.1
    ⟨3, ⟨40, 20⟩⟩ 1 0
    ⟨⟨300, 100⟩, [⟨1, ⟨100, 20⟩⟩, ⟨3, ⟨40, 20⟩⟩, ⟨2, ⟨250, 20⟩⟩],
      [(1, ⟨0, 20, 100, 20⟩), (2, ⟨1, 0, 250, 20⟩), (3, ⟨0, 0, 0, 0⟩)],
      [⟨0, 20, 100, 20⟩, ⟨0, 40, 250, 20⟩, ⟨1, 0, 250, 20⟩]⟩
    (by decide) (by decide) (by decide) ⟨1, ⟨100, 20⟩⟩ (by decide)

/-- C9: once a `TextSpan`'s frame has both dimensions non-zero, neither
`RenderSpan`, `RenderedSpan` nor `SpanFrame` changes it; when the frame is
still empty, `SpanFrame` forces a render, the render caches the sprite and
fixes each zero dimension to the sprite's corresponding dimension, and (for
a font whose sprites have positive dimensions) `SpanFrame` always returns a
definite (non-empty) size. -/
theorem C9_frame_stability (rend : Size → Size) (ts : TextSpan)
    (hrend : ∀ s, 0 < (rend s).w ∧ 0 < (rend s).h) :
    (ts.frame.w ≠ 0 → ts.frame.h ≠ 0 →
      (ts.RenderSpan rend).frame = ts.frame ∧
      ((ts.RenderedSpan rend).2).frame = ts.frame ∧
      ts.SpanFrame rend = (ts.frame, ts)) ∧
    (ts.frame.IsEmpty →
      ts.SpanFrame rend = ((ts.RenderSpan rend).frame, ts.RenderSpan rend) ∧
      (ts.RenderSpan rend).spanSprite = some (rend ts.frame) ∧
      (ts.RenderSpan rend).frame.w =
        (if ts.frame.w = 0 then (rend ts.frame).w else ts.frame.w) ∧
      (ts.RenderSpan rend).frame.h =
        (if ts.frame.h = 0 then (rend ts.frame).h else ts.frame.h)) ∧
    ¬ ((ts.SpanFrame rend).1).IsEmpty := by
  have hrs : (ts.RenderSpan rend).frame =
      ⟨if ts.frame.w = 0 then (rend ts.frame).w else ts.frame.w,
       if ts.frame.h = 0 then (rend ts.frame).h else ts.frame.h⟩ := rfl
  refine ⟨?_, ?_, ?_⟩
  · intro hw hh
    have hie : ¬ ts.frame.IsEmpty := by
      unfold Size.IsEmpty
      push_neg
      exact ⟨hw, hh⟩
    have hfr : (ts.RenderSpan rend).frame = ts.frame := by
      rw [hrs, if_neg hw, if_neg hh]
    refine ⟨hfr, ?_, ?_⟩
    · unfold TextSpan.RenderedSpan
      rcases hsp : ts.spanSprite with - | s
      · exact hfr
      · rfl
    · unfold TextSpan.SpanFrame
      rw [if_neg hie]
  · intro hie
    refine ⟨?_, rfl, rfl, rfl⟩
    unfold TextSpan.SpanFrame
    rw [if_pos hie]
  · unfold TextSpan.SpanFrame
    by_cases hie : ts.frame.IsEmpty
    · rw [if_pos hie]
      dsimp only
      rw [hrs]
      intro hcon
      have h1 := hrend ts.frame
      rcases hcon with h | h
      · dsimp only at h
        split at h
        · omega
        · exact absurd h (by assumption)
      · dsimp only at h
        split at h
        · omega
        · exact absurd h (by assumption)
    · rw [if_neg hie]
      exact hie

/-- Witness for C9 at a concrete span with unset frame and a font rendering
`7×5` sprites. -/
theorem C9_frame_stability_witness :
    ¬ ((TextSpan.SpanFrame (fun _ => ⟨7, 5⟩) ⟨⟨0, 0⟩, none⟩).1).IsEmpty :=
  (C9_frame_stability (fun _ => ⟨7, 5⟩) ⟨⟨0, 0⟩, none⟩
    (fun _ => ⟨by norm_num, by norm_num⟩)).2.2

/-! ## Termination of the exclusion-avoidance loop (claim C6) -/

/-- The lowest `y` from which a candidate clears every exclusion rectangle. -/
def maxBottom (rects : List Region) : Int :=
  rects.foldr (fun e acc => max (e.y + e.h) acc) 0

theorem le_maxBottom {rects : List Region} {e : Region} (h : e ∈ rects) :
    e.y + e.h ≤ maxBottom rects := by
  induction rects with
  | nil => cases h
  | cons a t ih =>
      rcases List.mem_cons.mp h with rfl | h2
      · exact le_max_left _ _
      · exact le_trans (ih h2) (le_max_right _ _)

theorem placeLoop_succ (cw : Int) (sf : Size) (rects : List Region)
    (fuel : Nat) (px py : Int) (exc : Option Region) (lw : Int) :
    placeLoop cw sf rects (fuel + 1) px py exc lw =
      match ExcludedRegionForRect rects (placeStep cw sf px py exc lw) with
      | none => some (placeStep cw sf px py exc lw)
      | some e =>
          placeLoop cw sf rects fuel (placeStep cw sf px py exc lw).x
            (placeStep cw sf px py exc lw).y (some e) sf.w := rfl

theorem placeStep_some (cw : Int) (sf : Size) (px py lw : Int) (e : Region) :
    placeStep cw sf px py (some e) lw =
      if e.x + e.w + 1 ≠ 0 ∧ cw < e.x + e.w + 1 + sf.w then
        ⟨0, py + sf.h, sf.w, sf.h⟩
      else ⟨e.x + e.w + 1, py, sf.w, sf.h⟩ := rfl

theorem placeStep_none_zero (cw : Int) (sf : Size) (px py : Int) :
    placeStep cw sf px py none 0 =
      if px ≠ 0 ∧ cw < px + sf.w then ⟨0, py + sf.h, sf.w, sf.h⟩
      else ⟨px, py, sf.w, sf.h⟩ := by
  unfold placeStep
  norm_num

theorem placeLoop_term_aux {cw : Int} {sf : Size} {rects : List Region}
    (hw : 0 < sf.w) (hh : 0 < sf.h) (hcw : 0 ≤ cw) :
    ∀ (n1 n2 : Nat) (px py : Int) (e : Region), e ∈ rects →
      (maxBottom rects - py).toNat ≤ n1 → (cw + 1 - px).toNat ≤ n2 →
      px ≤ cw →
      Region.IntersectsRegion ⟨px, py, sf.w, sf.h⟩ e →
      ∃ fuel rgn,
        placeLoop cw sf rects fuel px py (some e) sf.w = some rgn ∧
        ExcludedRegionForRect rects rgn = none := by
  intro n1
  induction n1 with
  | zero =>
      intro n2 px py e hmem h1 h2 hpx hint
      have hi3 : py < e.y + e.h := hint.2.2.1
      have hB := le_maxBottom hmem
      omega
  | succ n1 ih1 =>
      intro n2
      induction n2 with
      | zero =>
          intro px py e hmem h1 h2 hpx hint
          omega
      | succ n2 ih2 =>
          intro px py e hmem h1 h2 hpx hint
          have hi1 : px < e.x + e.w := hint.1
          have hi3 : py < e.y + e.h := hint.2.2.1
          have hB := le_maxBottom hmem
          by_cases hwrap : e.x + e.w + 1 ≠ 0 ∧ cw < e.x + e.w + 1 + sf.w
          · have hstep : placeStep cw sf px py (some e) sf.w =
                ⟨0, py + sf.h, sf.w, sf.h⟩ := by
              rw [placeStep_some, if_pos hwrap]
            rcases hfind : ExcludedRegionForRect rects
                (placeStep cw sf px py (some e) sf.w) with - | e2
            · refine ⟨0 + 1, placeStep cw sf px py (some e) sf.w, ?_, hfind⟩
              rw [placeLoop_succ, hfind]
            · have hmem2 := (excludedRegionForRect_eq_some hfind).1
              have hint2 := (excludedRegionForRect_eq_some hfind).2
              rw [hstep] at hint2
              obtain ⟨f, r, hf, hnone⟩ :=
                ih1 (cw + 1).toNat 0 (py + sf.h) e2 hmem2 (by omega)
                  (by omega) hcw hint2
              refine ⟨f + 1, r, ?_, hnone⟩
              rw [placeLoop_succ, hfind, hstep]
              exact hf
          · have hstep : placeStep cw sf px py (some e) sf.w =
                ⟨e.x + e.w + 1, py, sf.w, sf.h⟩ := by
              rw [placeStep_some, if_neg hwrap]
            have hx2 : e.x + e.w + 1 ≤ cw := by
              rcases not_and_or.mp hwrap with h | h
              · push_neg at h
                omega
              · push_neg at h
                omega
            rcases hfind : ExcludedRegionForRect rects
                (placeStep cw sf px py (some e) sf.w) with - | e2
            · refine ⟨0 + 1, placeStep cw sf px py (some e) sf.w, ?_, hfind⟩
              rw [placeLoop_succ, hfind]
            · have hmem2 := (excludedRegionForRect_eq_some hfind).1
              have hint2 := (excludedRegionForRect_eq_some hfind).2
              rw [hstep] at hint2
              obtain ⟨f, r, hf, hnone⟩ :=
                ih2 (e.x + e.w + 1) py e2 hmem2 (by omega) (by omega)
                  hx2 hint2
              refine ⟨f + 1, r, ?_, hnone⟩
              rw [placeLoop_succ, hfind, hstep]
              exact hf

/-- C6: for every span frame with positive width and height, every finite
exclusion set and every starting draw point, the `do/while`
exclusion-avoidance loop terminates (some finite fuel suffices), and the
rectangle it returns intersects no exclusion rectangle. -/
theorem C6_exclusion_loop_terminates (cw : Int) (sf : Size)
    (rects : List Region) (px py : Int)
    (hw : 0 < sf.w) (hh : 0 < sf.h) (hcw : 0 ≤ cw) :
    ∃ fuel rgn,
      placeLoop cw sf rects fuel px py none 0 = some rgn ∧
      ExcludedRegionForRect rects rgn = none ∧
      ∀ e ∈ rects, ¬ rgn.IntersectsRegion e := by
  rcases hfind : ExcludedRegionForRect rects (placeStep cw sf px py none 0)
    with - | e
  · exact ⟨0 + 1, placeStep cw sf px py none 0,
      by rw [placeLoop_succ, hfind], hfind, excludedRegionForRect_eq_none hfind⟩
  · have hmem := (excludedRegionForRect_eq_some hfind).1
    have hint := (excludedRegionForRect_eq_some hfind).2
    by_cases hwrap : px ≠ 0 ∧ cw < px + sf.w
    · have hstep : placeStep cw sf px py none 0 =
          ⟨0, py + sf.h, sf.w, sf.h⟩ := by
        rw [placeStep_none_zero, if_pos hwrap]
      rw [hstep] at hint
      obtain ⟨f, r, hf, hnone⟩ :=
        placeLoop_term_aux hw hh hcw (maxBottom rects - (py + sf.h)).toNat
          (cw + 1).toNat 0 (py + sf.h) e hmem (le_refl _) (by omega) hcw hint
      refine ⟨f + 1, r, ?_, hnone, excludedRegionForRect_eq_none hnone⟩
      rw [placeLoop_succ, hfind, hstep]
      exact hf
    · have hstep : placeStep cw sf px py none 0 =
          ⟨px, py, sf.w, sf.h⟩ := by
        rw [placeStep_none_zero, if_neg hwrap]
      have hx2 : px ≤ cw := by
        rcases not_and_or.mp hwrap with h | h
        · push_neg at h
          omega
        · push_neg at h
          omega
      rw [hstep] at hint
      obtain ⟨f, r, hf, hnone⟩ :=
        placeLoop_term_aux hw hh hcw (maxBottom rects - py).toNat
          (cw + 1 - px).toNat px py e hmem (le_refl _) (le_refl _) hx2 hint
      refine ⟨f + 1, r, ?_, hnone, excludedRegionForRect_eq_none hnone⟩
      rw [placeLoop_succ, hfind, hstep]
      exact hf

/-- Witness for C6 at the concrete C8 configuration: width 300, span
`100×20`, one exclusion rectangle. -/
theorem C6_exclusion_loop_terminates_witness :
    ∃ fuel rgn,
      placeLoop 300 ⟨100, 20⟩ [⟨0, 20, 50, 20⟩] fuel 0 20 none 0 = some rgn ∧
      ExcludedRegionForRect [⟨0, 20, 50, 20⟩] rgn = none ∧
      ∀ e ∈ [(⟨0, 20, 50, 20⟩ : Region)], ¬ rgn.IntersectsRegion e :=
  C6_exclusion_loop_terminates 300 ⟨100, 20⟩ [⟨0, 20, 50, 20⟩] 0 20
    (by norm_num) (by norm_num) (by norm_num)

/-- C10: `SpanAtPoint` returns NULL for every point outside the container's
own frame rectangle, regardless of the layout cache's contents. -/
theorem C10_spanAtPoint_outside (tc : TextContainer) (p : Point)
    (h : ¬ (Region.mk 0 0 tc.frame.w tc.frame.h).PointInside p) :
    tc.SpanAtPoint p = none := by
  unfold TextContainer.SpanAtPoint
  rw [if_neg h]

/-- Witness for C10: the point `(20,5)` lies outside a `10×10` frame but
inside a cached rectangle; `SpanAtPoint` still returns `none`. -/
theorem C10_spanAtPoint_outside_witness :
    ¬ (Region.mk 0 0 (10 : Int) 10).PointInside ⟨20, 5⟩ ∧
    (Region.mk 0 0 50 50).PointInside ⟨20, 5⟩ ∧
    TextContainer.SpanAtPoint ⟨⟨10, 10⟩, [], [(1, ⟨0, 0, 50, 50⟩)], []⟩
      ⟨20, 5⟩ = none :=
  ⟨by decide, by decide,
    C10_spanAtPoint_outside ⟨⟨10, 10⟩, [], [(1, ⟨0, 0, 50, 50⟩)], []⟩ ⟨20, 5⟩
      (by decide)⟩

end GemRB
